import Mathlib

/-!
Verification of the authentication/authorization facade of the copr frontend
(src/frontend/coprs_frontend/coprs/auth.py and the username normalization in
src/frontend/coprs_frontend/coprs/views/apiv3_ns/apiv3_general.py).

The Python code is shallowly embedded: pure string manipulation becomes Lean
functions over List Char / String, the user database becomes an explicit list
of records threaded through the stateful operations, Python exceptions become
an explicit Except error type, and the LDAP network is an oracle mapping each
attempt and request to a reply.
-/

/-! ## Python string primitives -/

/-- Truthiness of a Python optional string: None and the empty string are
falsy, every other string is truthy. -/
def pyTruthyStr : Option String → Bool
  | none => false
  | some s => !s.isEmpty

/-- Embedding of Python `s.split(sep)` for a single-character separator:
splits at every occurrence of the separator, keeping empty chunks, and
returns one chunk even for the empty input. -/
def pySplit (sep : Char) : List Char → List (List Char)
  | [] => [[]]
  | c :: rest =>
    match pySplit sep rest with
    | [] => [[]]
    | g :: gs => if c = sep then [] :: g :: gs else (c :: g) :: gs

/-- Fuel-driven worker for `pyReplaceDel`; the fuel starts at the length of
the scanned list, which suffices because each step consumes at least one
character. -/
def replaceGo (old : List Char) : Nat → List Char → List Char
  | _, [] => []
  | 0, s => s
  | n + 1, c :: rest =>
    if old ≠ [] ∧ old.isPrefixOf (c :: rest) then
      replaceGo old n ((c :: rest).drop old.length)
    else
      c :: replaceGo old n rest

/-- Embedding of Python `s.replace(old, "")`: delete every non-overlapping
occurrence of `old`, scanning left to right. -/
def pyReplaceDel (s old : List Char) : List Char := replaceGo old s.length s

/-- Worker embedding Python `re.sub(r"@.*", "", s)`: in scan mode (`false`)
every `@` starts a match that consumes characters up to, but not including,
the next newline; in skip mode (`true`) characters are dropped until a
newline (which is kept) or the end of the string. -/
def subAtRealmAux : Bool → List Char → List Char
  | _, [] => []
  | false, c :: rest =>
    if c = '@' then subAtRealmAux true rest else c :: subAtRealmAux false rest
  | true, c :: rest =>
    if c = '\n' then c :: subAtRealmAux false rest else subAtRealmAux true rest

/-- Embedding of Python `re.sub(r"@.*", "", s)`. -/
def subAtRealm (s : List Char) : List Char := subAtRealmAux false s

/-- Embedding of Python `re.sub("/", "_", s)`. -/
def replaceSlash (s : List Char) : List Char :=
  s.map fun c => if c = '/' then '_' else c

/-- Character class of the regex `[\w.-]` restricted to ASCII: letters,
digits, underscore, dot, dash. -/
def isWordClass (c : Char) : Bool :=
  c.isAlphanum || c = '_' || c = '.' || c = '-'

/-- Embedding of `re.match(r"^[\w.-]+$", s) is not None`. The `$` anchor of
Python also matches just before one trailing newline, so a single final
newline is tolerated by the regex engine. -/
def fullMatchCharset (s : List Char) : Bool :=
  let core := if s.getLast? = some '\n' then s.dropLast else s
  !core.isEmpty && core.all isWordClass

/-! ## urlparse netloc extraction

Embedding of the fragment of `urllib.parse.urlparse` that the code uses: the
`netloc` attribute. The scheme prefix `scheme:` is recognized when the part
before the first colon starts with a letter and consists of letters, digits
and `+`, `-`, `.`; the netloc is then present exactly when the remainder
starts with `//`, and extends up to the next `/`, `?` or `#`. -/

/-- Characters allowed in a URL scheme after the leading letter. -/
def schemeChar (c : Char) : Bool := c.isAlphanum || c = '+' || c = '-' || c = '.'

/-- Split a character list at the first colon, returning the parts before
and after it, or `none` when there is no colon. -/
def splitAtColon : List Char → Option (List Char × List Char)
  | [] => none
  | c :: rest =>
    if c = ':' then some ([], rest)
    else (splitAtColon rest).map fun p => (c :: p.1, p.2)

/-- Drop a leading `scheme:` prefix when present and well formed (Python
urlparse only recognizes a scheme when the colon is preceded by a nonempty
valid scheme name). -/
def removeScheme (s : List Char) : List Char :=
  match splitAtColon s with
  | some (c :: cs, after) =>
    if c.isAlpha ∧ (c :: cs).all schemeChar then after else s
  | _ => s

/-- The `netloc` of a URL string, as computed by Python urlparse. -/
def netloc (s : List Char) : List Char :=
  match removeScheme s with
  | '/' :: '/' :: rest => rest.takeWhile fun c => c ≠ '/' ∧ c ≠ '?' ∧ c ≠ '#'
  | _ => []

/-! ## Data model -/

/-- The `email_domain` entry of the `KRB5_LOGIN` configuration dictionary. -/
structure Krb5Config where
  email_domain : String
deriving DecidableEq, Repr

/-- The configuration surface of the facade (`app.config` keys read by
auth.py). `KRB5_LOGIN` is a dictionary when Kerberos is configured, so it is
an `Option Krb5Config` here. -/
structure Config where
  fas_login : Bool
  krb5_login : Option Krb5Config
  ldap_url : String
  ldap_search_string : String
  use_allowed_users : Bool
  allowed_users : List String
  openid_provider_url : String
deriving DecidableEq, Repr

/-- The `lp` (teams) extension carried by an OpenID response. -/
structure TeamResp where
  teams : List String
deriving DecidableEq, Repr

/-- An OpenID authentication response: identity URL, claims, and the optional
`lp` team extension (`resp.extensions["lp"]`; only the `lp` namespace is ever
consulted by the code). -/
structure OidResp where
  identity_url : String
  email : String
  timezone : String
  extensions_lp : Option TeamResp
deriving DecidableEq, Repr

/-- The durable user record (`models.User`): username, email, timezone. -/
structure User where
  name : String
  mail : String
  timezone : Option String
deriving DecidableEq, Repr

/-- Python values returned by the group-resolution functions: `None`, a list
of group names, or a dictionary with a single string key (the only dict shape
the code produces). -/
inductive PyVal where
  | vNone
  | vList (xs : List String)
  | vDict (key : String) (val : PyVal)
deriving DecidableEq, Repr

/-- Python exceptions raised by the embedded code. `serverDown` is the
`ldap.SERVER_DOWN` exception of the client library; `coprHttp` and
`accessRestricted` are the application exceptions; `indexError`, `keyError`,
`typeError` and `valueError` are the builtin exceptions; `notFound` is the
typed error named by the specification (no code path produces it). -/
inductive Exc where
  | coprHttp (msg : String)
  | accessRestricted
  | indexError
  | keyError
  | typeError
  | valueError
  | notFound
  | serverDown (msg : String)
deriving DecidableEq, Repr

deriving instance DecidableEq for Except

/-- One LDAP search result entry: a `(dn, attributes)` pair, the attribute
map being a Python dictionary from attribute name to list of values. -/
structure LdapEntry where
  dn : String
  attrs : List (String × List String)
deriving DecidableEq, Repr

/-- Reply of the LDAP server to one search attempt. -/
inductive LdapReply where
  | down (msg : String)
  | entries (es : List LdapEntry)
deriving DecidableEq, Repr

/-- The LDAP network, as an oracle: given the attempt number, the server URL,
the search base, the requested attributes and the filter string, produce the
reply of that attempt. -/
structure LdapServer where
  respond : Nat → String → String → List String → String → LdapReply

/-- The state held by the `LDAP` facade object (its constructor arguments). -/
structure LDAPConn where
  url : String
  search_string : String
deriving DecidableEq, Repr

/-- Python dictionary built from a list of key/value pairs, then looked up:
later pairs with the same key overwrite earlier ones. -/
def dictLookup {α β : Type} [DecidableEq α] (ps : List (α × β)) (k : α) : Option β :=
  ps.foldl (fun acc p => if p.1 = k then some p.2 else acc) none

/-- A Python 2-tuple such as an LDAP `(dn, attrs)` entry is always truthy. -/
def pyTruthyEntry (_ : LdapEntry) : Bool := true

/-! ## Persistence layer

`UsersLogic` lives in coprs/logic/users_logic.py, which is not part of the
sources under verification; it is modelled from the spec. The database is an
explicit list of `User` records threaded through the operations. -/

/-- Modelled from the spec: `UsersLogic.get(username).first()` (the module
coprs/logic/users_logic.py is not under src/) — look up the Identity record
keyed by username in the durable store. -/
def UsersLogic.get (db : List User) (username : String) : Option User :=
  db.find? fun u => u.name == username

/-- Modelled from the spec: `UsersLogic.create_user_wrapper` (the module
coprs/logic/users_logic.py is not under src/) — build a fresh Identity record
from a username, an email and an optional timezone; callers append it to the
store. -/
def UsersLogic.create_user_wrapper (username email : String)
    (timezone : Option String) : User :=
  ⟨username, email, timezone⟩

/-! ## FedoraAccounts (federated identity) -/

/-- Embedding of `FedoraAccounts.is_user_allowed` (auth.py lines 132-141). -/
def FedoraAccounts.is_user_allowed (cfg : Config) (username : Option String) : Bool :=
  if !pyTruthyStr username then false
  else if !cfg.use_allowed_users then true
  else decide ((username.getD "") ∈ cfg.allowed_users)

/-- Embedding of `FedoraAccounts.fed_raw_name` (auth.py lines 143-152): if
the identity URL has no netloc it is returned unchanged, otherwise the result
is the netloc with every occurrence of "." followed by the netloc of the
configured `OPENID_PROVIDER_URL` deleted. -/
def FedoraAccounts.fed_raw_name (cfg : Config) (oidname : String) : String :=
  let n := netloc oidname.toList
  if n = [] then oidname
  else String.mk (pyReplaceDel n ('.' :: netloc cfg.openid_provider_url.toList))

/-- Embedding of `FedoraAccounts.user_from_response` (auth.py lines 154-171).
The record found (or freshly created) has its `mail` and `timezone` fields
overwritten with the claims of the response; the ORM row mutation is embedded
as replacing the stored record with the updated one. Creation followed by the
unconditional overwrite collapses to storing the updated record directly. -/
def FedoraAccounts.user_from_response (cfg : Config) (resp : OidResp)
    (db : List User) : User × List User :=
  let username := FedoraAccounts.fed_raw_name cfg resp.identity_url
  match UsersLogic.get db username with
  | some u =>
    let u2 : User := ⟨u.name, resp.email, some resp.timezone⟩
    (u2, db.map fun v => if v.name == username then u2 else v)
  | none =>
    let u2 : User := ⟨username, resp.email, some resp.timezone⟩
    (u2, db ++ [u2])

/-! ## Kerberos -/

/-- Embedding of `Kerberos.user_from_username` (auth.py lines 202-223): an
existing user is returned unchanged; otherwise, when `FAS_LOGIN` is true the
call fails with `AccessRestricted`; otherwise a user is created with the
email synthesized from the username and the configured `email_domain` (a
missing `KRB5_LOGIN` dictionary would raise a builtin exception on the
subscript, embedded as `typeError`). -/
def Kerberos.user_from_username (cfg : Config) (db : List User)
    (username : String) : Except Exc (User × List User) :=
  match UsersLogic.get db username with
  | some u => .ok (u, db)
  | none =>
    if cfg.fas_login then .error .accessRestricted
    else
      match cfg.krb5_login with
      | some kc =>
        let u := UsersLogic.create_user_wrapper username
          (username ++ "@" ++ kc.email_domain) none
        .ok (u, db ++ [u])
      | none => .error .typeError

/-! ## Username normalization (apiv3_general.py) -/

/-- Embedding of `krb_straighten_username` (apiv3_general.py lines 30-45):
strip the realm (`re.sub` of `@.*`), replace `/` with `_`, and return the
result only when it matches the restricted charset regex, else `None`. -/
def krb_straighten_username (krb_remote_user : String) : Option String :=
  if fullMatchCharset (replaceSlash (subAtRealm krb_remote_user.toList)) then
    some (String.mk (replaceSlash (subAtRealm krb_remote_user.toList)))
  else none

/-! ## LDAP client -/

/-- Embedding of `LDAP._build_filter` (auth.py lines 341-345): a falsy
filter collection is replaced by the objectclass wildcard, then the pairs are
assembled into a conjunctive filter string. -/
def LDAP._build_filter (filters : List (String × String)) : String :=
  let fs := if filters = [] then [("objectclass", "*")] else filters
  "(&" ++ String.join (fs.map fun p => "(" ++ p.1 ++ "=" ++ p.2 ++ ")") ++ ")"

/-- Embedding of `LDAP._send_request` (auth.py lines 297-307): one attempt
against the server; an `ldap.SERVER_DOWN` outcome is caught and re-raised as
`CoprHttpException` carrying the description message. -/
def LDAP._send_request (conn : LDAPConn) (srv : LdapServer) (attempt : Nat)
    (ou : String) (attrs : List String) (ffilter : String) :
    Except Exc (List LdapEntry) :=
  match srv.respond attempt conn.url ou attrs ffilter with
  | .down msg => .error (.coprHttp msg)
  | .entries es => .ok es

/-- Embedding of `LDAP._send_request_repeatedly` (auth.py lines 287-295),
with explicit fuel standing for the number of loop iterations observed:
`none` means the loop is still running after that many iterations. The loop
catches only `ldap.SERVER_DOWN`; any other exception propagates. -/
def LDAP._send_request_repeatedly (conn : LDAPConn) (srv : LdapServer)
    (ou : String) (attrs : List String) (ffilter : String) :
    Nat → Nat → Option (Except Exc (List LdapEntry))
  | _, 0 => none
  | i, fuel + 1 =>
    match LDAP._send_request conn srv i ou attrs ffilter with
    | .ok es => some (.ok es)
    | .error (.serverDown _) =>
      LDAP._send_request_repeatedly conn srv ou attrs ffilter (i + 1) fuel
    | .error e => some (.error e)

/-- Embedding of `LDAP.send_request` (auth.py lines 281-285) as its
first-attempt result; `ldap_repeatedly_is_first_attempt` below proves that
the retry loop always returns this on its first iteration, because
`_send_request` never lets `ldap.SERVER_DOWN` escape. -/
def LDAP.send_request (conn : LDAPConn) (srv : LdapServer) (ou : String)
    (attrs : List String) (ffilter : String) : Except Exc (List LdapEntry) :=
  LDAP._send_request conn srv 1 ou attrs ffilter

/-- Embedding of `LDAP.query_one` (auth.py lines 309-314): builds the filter,
sends the request with the configured search base, and subscripts the result
with `[0]` — an empty result raises the builtin index exception. -/
def LDAP.query_one (conn : LDAPConn) (srv : LdapServer) (attrs : List String)
    (filters : List (String × String)) : Except Exc LdapEntry :=
  let ffilter := LDAP._build_filter filters
  match LDAP.send_request conn srv conn.search_string attrs ffilter with
  | .error e => .error e
  | .ok [] => .error .indexError
  | .ok (e :: _) => .ok e

/-- Embedding of `LDAP.get_user` (auth.py lines 316-330). -/
def LDAP.get_user (conn : LDAPConn) (srv : LdapServer) (username : String) :
    Except Exc LdapEntry :=
  LDAP.query_one conn srv ["cn", "uid", "memberOf", "mail"]
    [("objectclass", "*"), ("uid", username)]

/-- Embedding of `LDAP.get_user_groups` (auth.py lines 332-339): fetch the
user entry, return `None` when the entry is falsy (unreachable for 2-tuples),
else the `memberOf` attribute values (a missing key raises). -/
def LDAP.get_user_groups (conn : LDAPConn) (srv : LdapServer)
    (username : String) : Except Exc (Option (List String)) :=
  match LDAP.get_user conn srv username with
  | .error e => .error e
  | .ok user =>
    if !pyTruthyEntry user then .ok none
    else
      match dictLookup user.attrs "memberOf" with
      | some gs => .ok (some gs)
      | none => .error .keyError

/-! ## LDAP group-name parsing -/

/-- Embedding of `dict([tuple(x.split("=")) for x in chunks])`: each chunk
must split on `=` into exactly a key and a value, otherwise the conversion to
a dictionary raises. -/
def toPairs : List (List Char) → Option (List (List Char × List Char))
  | [] => some []
  | x :: xs =>
    match pySplit '=' x with
    | [k, v] => (toPairs xs).map fun ps => (k, v) :: ps
    | _ => none

/-- Embedding of the per-group parsing inside `LDAPGroups.group_names`
(auth.py lines 266-268): split on `,`, split each chunk on `=`, build the
attribute dictionary and select its `cn` entry. A chunk that is not a single
key=value pair raises `valueError`; a missing `cn` key raises `keyError`. -/
def parse_group (g : List Char) : Except Exc (List Char) :=
  match toPairs (pySplit ',' g) with
  | none => .error .valueError
  | some ps =>
    match dictLookup ps ['c', 'n'] with
    | some v => .ok v
    | none => .error .keyError

/-- Flatten a list of attribute pairs into the tail of a DN-shaped string:
one ",key=value" chunk per pair. -/
def segsFlat : List (List Char × List Char) → List Char
  | [] => []
  | p :: rest => ',' :: (p.1 ++ ('=' :: (p.2 ++ segsFlat rest)))

/-- Embedding of `LDAPGroups.group_names` (auth.py lines 257-269): query the
user groups and parse each returned DN-shaped string; iterating a `None`
result raises the builtin type exception. -/
def LDAPGroups.group_names (cfg : Config) (srv : LdapServer)
    (username : String) : Except Exc (List String) :=
  let conn : LDAPConn := ⟨cfg.ldap_url, cfg.ldap_search_string⟩
  match LDAP.get_user_groups conn srv username with
  | .error e => .error e
  | .ok none => .error .typeError
  | .ok (some gs) =>
    gs.foldr
      (fun g acc =>
        match parse_group g.toList, acc with
        | .ok cn, .ok rest => .ok (String.mk cn :: rest)
        | .error e, _ => .error e
        | _, .error e => .error e)
      (.ok [])

/-! ## Group resolution facade -/

/-- Embedding of `OpenIDGroups.group_names` (auth.py lines 240-249): when the
`lp` namespace is present in the response extensions, the result is the
dictionary binding "fas_groups" to the team list, else `None`. -/
def OpenIDGroups.group_names (resp : OidResp) : PyVal :=
  match resp.extensions_lp with
  | some t => .vDict "fas_groups" (.vList t.teams)
  | none => .vNone

/-- Embedding of `GroupAuth.group_names` (auth.py lines 75-92): a supplied
response is handed to `OpenIDGroups` unconditionally; otherwise a truthy
username with `FAS_LOGIN` yields `None`; otherwise a truthy username with
both LDAP settings truthy delegates to `LDAPGroups`; otherwise the
no-source exception is raised. -/
def GroupAuth.group_names (cfg : Config) (srv : LdapServer)
    (resp : Option OidResp) (username : Option String) : Except Exc PyVal :=
  match resp with
  | some r => .ok (OpenIDGroups.group_names r)
  | none =>
    if cfg.fas_login && pyTruthyStr username then .ok .vNone
    else if pyTruthyStr username && !cfg.ldap_url.isEmpty
        && !cfg.ldap_search_string.isEmpty then
      -- a truthy username is necessarily `some`; getD is never the default
      match LDAPGroups.group_names cfg srv (username.getD "") with
      | .ok names => .ok (.vList names)
      | .error e => .error e
    else .error (.coprHttp "Nowhere to get user groups from")

/-! ## Auxiliary counting -/

/-- Number of stored Identity records carrying the given username. -/
def countUsers (db : List User) (n : String) : Nat :=
  (db.filter fun u => u.name == n).length

/-! ## Concrete fixtures used by witnesses and counterexamples -/

/-- Configuration with the provider URL of the specification scenarios. -/
def exCfg3 : Config := ⟨true, none, "", "", false, [], "https://id.example.org/"⟩

/-- An OpenID response carrying one team in the `lp` extension. -/
def exResp1 : OidResp :=
  ⟨"https://alice.id.example.org/", "alice@example.com", "UTC", some ⟨["copr-team"]⟩⟩

/-- An OpenID response with no `lp` extension. -/
def respNoLp : OidResp := ⟨"https://alice.id.example.org/", "alice@example.com", "UTC", none⟩

/-- A directory server whose search result is always empty. -/
def emptySrv : LdapServer := ⟨fun _ _ _ _ _ => .entries []⟩

/-- A directory server that is down on the first attempt and healthy on
every later attempt. -/
def flakySrv : LdapServer :=
  ⟨fun i _ _ _ _ => if i = 1 then .down "down" else .entries [⟨"dn", []⟩]⟩

/-- A directory server always returning one user entry with one group. -/
def oneSrv : LdapServer :=
  ⟨fun _ _ _ _ _ => .entries [⟨"uid=bob", [("memberOf", ["cn=g,ou=x"])]⟩]⟩

/-- A directory connection fixture. -/
def exConn : LDAPConn := ⟨"ldap://example", "ou=base"⟩

/-- Kerberos-only configuration with an email domain. -/
def cfgK : Config := ⟨false, some ⟨"example.com"⟩, "", "", false, [], ""⟩

/-- Federated configuration with the allow-list gate enabled. -/
def cfgW : Config := ⟨true, none, "", "", true, ["alice"], "https://id.example.org/"⟩

/-- Federated configuration with the allow-list gate disabled. -/
def cfgW2 : Config := ⟨true, none, "", "", false, [], "https://id.example.org/"⟩

/-- Two federated responses sharing one identity URL with distinct claims. -/
def wresp1 : OidResp := ⟨"https://alice.id.example.org/", "first@example.com", "UTC", none⟩

/-- Second response for the same identity URL, carrying the later claims. -/
def wresp2 : OidResp := ⟨"https://alice.id.example.org/", "second@example.com", "CET", none⟩

/-! ## Helper lemmas -/

/-- No `@` survives the realm-stripping substitution. -/
theorem subAtRealmAux_no_at (l : List Char) : ∀ b : Bool, '@' ∉ subAtRealmAux b l := by
  induction l with
  | nil => intro b; cases b <;> simp [subAtRealmAux]
  | cons c rest ih =>
    intro b
    cases b with
    | false =>
      by_cases hc : c = '@'
      · simpa [subAtRealmAux, hc] using ih true
      · simp only [subAtRealmAux, if_neg hc]
        intro hmem
        rcases List.mem_cons.mp hmem with h | h
        · exact hc h.symm
        · exact ih false h
    | true =>
      by_cases hc : c = '\n'
      · simp only [subAtRealmAux, if_pos hc]
        intro hmem
        rcases List.mem_cons.mp hmem with h | h
        · rw [hc] at h; exact absurd h (by decide)
        · exact ih false h
      · simpa [subAtRealmAux, hc] using ih true

/-- The slash substitution removes every slash. -/
theorem replaceSlash_no_slash (l : List Char) : '/' ∉ replaceSlash l := by
  intro h
  rcases List.mem_map.mp h with ⟨c, _, heq⟩
  by_cases hc : c = '/'
  · simp [hc] at heq
  · simp [hc] at heq

/-- The slash substitution introduces no `@`. -/
theorem replaceSlash_mem_at (l : List Char) (h : '@' ∈ replaceSlash l) : '@' ∈ l := by
  rcases List.mem_map.mp h with ⟨c, hc, heq⟩
  by_cases hsl : c = '/'
  · simp [hsl] at heq
  · simp [hsl] at heq; exact heq ▸ hc

/-- The charset check rejects the empty string. -/
theorem fullMatchCharset_ne_nil (u : List Char) (h : fullMatchCharset u = true) :
    u ≠ [] := by
  intro hu
  rw [hu] at h
  exact absurd h (by decide)

/-- The retry loop of the directory client always resolves on its first
iteration with the result of the first attempt, because `_send_request`
translates `ldap.SERVER_DOWN` into `CoprHttpException` before the loop can
catch it. -/
theorem ldap_repeatedly_is_first_attempt (conn : LDAPConn) (srv : LdapServer)
    (ou : String) (attrs : List String) (ffilter : String) (fuel : Nat) :
    LDAP._send_request_repeatedly conn srv ou attrs ffilter 1 (fuel + 1) =
      some (LDAP.send_request conn srv ou attrs ffilter) := by
  unfold LDAP.send_request LDAP._send_request_repeatedly LDAP._send_request
  cases h : srv.respond 1 conn.url ou attrs ffilter <;> simp [h]

/-! ## Claim theorems -/

/-- Claim C5: the Kerberos principal normalization strips the realm suffix,
replaces slashes by underscores and validates against the restricted charset,
returning null on failure: the three specification examples evaluate as
stated, and every successfully returned name is nonempty and free of `@` and
`/`. -/
theorem c5_krb_straighten_username_spec :
    krb_straighten_username "alice@EXAMPLE.COM" = some "alice" ∧
    krb_straighten_username "alice/admin@EXAMPLE.COM" = some "alice_admin" ∧
    krb_straighten_username "bad user!" = none ∧
    ∀ s r, krb_straighten_username s = some r →
      r ≠ "" ∧ '@' ∉ r.toList ∧ '/' ∉ r.toList := by
  refine ⟨by decide, by decide, by decide, ?_⟩
  intro s r h
  unfold krb_straighten_username at h
  split at h
  · rename_i hok
    have hr : r = String.mk (replaceSlash (subAtRealm s.toList)) :=
      (Option.some.inj h).symm
    subst hr
    refine ⟨?_, ?_, ?_⟩
    · intro hemp
      have : replaceSlash (subAtRealm s.toList) = [] := congrArg String.data hemp
      exact fullMatchCharset_ne_nil _ hok this
    · intro hat
      exact subAtRealmAux_no_at s.toList false (replaceSlash_mem_at _ hat)
    · exact replaceSlash_no_slash _
  · exact absurd h (by simp)

/-- Witness for C5: the universal clause applied at a concrete input. -/
theorem c5_witness :
    ("alice" : String) ≠ "" ∧ '@' ∉ ("alice" : String).toList ∧
      '/' ∉ ("alice" : String).toList :=
  c5_krb_straighten_username_spec.2.2.2 "alice@EXAMPLE.COM" "alice" (by decide)

/-- Claim C10: the federated allow-list gate is total and three-valued — a
null or empty username yields false; with the gate disabled every non-empty
username yields true; with the gate enabled the result is true exactly for
members of the configured allow-list. -/
theorem c10_is_user_allowed_cases (cfg : Config) (s : String) :
    FedoraAccounts.is_user_allowed cfg none = false ∧
    FedoraAccounts.is_user_allowed cfg (some "") = false ∧
    (s ≠ "" → cfg.use_allowed_users = false →
      FedoraAccounts.is_user_allowed cfg (some s) = true) ∧
    (s ≠ "" → cfg.use_allowed_users = true →
      (FedoraAccounts.is_user_allowed cfg (some s) = true ↔
        s ∈ cfg.allowed_users)) := by
  refine ⟨rfl, rfl, ?_, ?_⟩
  · intro hs hgate
    simp [FedoraAccounts.is_user_allowed, pyTruthyStr, String.isEmpty_iff, hs, hgate]
  · intro hs hgate
    simp [FedoraAccounts.is_user_allowed, pyTruthyStr, String.isEmpty_iff, hs, hgate]

/-- Witness for C10: the gate applied at concrete configurations. -/
theorem c10_witness :
    (FedoraAccounts.is_user_allowed cfgW (some "alice") = true ↔
      "alice" ∈ cfgW.allowed_users) ∧
    FedoraAccounts.is_user_allowed cfgW2 (some "alice") = true :=
  ⟨(c10_is_user_allowed_cases cfgW "alice").2.2.2 (by decide) rfl,
   (c10_is_user_allowed_cases cfgW2 "alice").2.2.1 (by decide) rfl⟩

/-- Counterexample for C3: with provider `https://id.example.org/`, the
identity URL `https://id.example.org/alice` does not normalize to `alice`,
and the foreign-host URL `https://other.example.com/alice` is not passed
through unchanged — the code operates on the netloc, not on the path. -/
theorem c3_counterexample_identity_url_path :
    FedoraAccounts.fed_raw_name exCfg3 "https://id.example.org/alice" ≠ "alice" ∧
    FedoraAccounts.fed_raw_name exCfg3 "https://other.example.com/alice" ≠
      "https://other.example.com/alice" := by
  constructor <;> decide

/-- Claim C3 amended: normalization extracts the netloc of the identity URL
and deletes every occurrence of "." followed by the netloc of the configured
provider; a URL without a netloc is returned unchanged. In particular
`https://alice.id.example.org/` normalizes to `alice`, while
`https://id.example.org/alice` yields `id.example.org` and
`https://other.example.com/alice` yields `other.example.com`. -/
theorem c3_fed_raw_name_netloc_based :
    (∀ (cfg : Config) (url : String), netloc url.toList = [] →
      FedoraAccounts.fed_raw_name cfg url = url) ∧
    FedoraAccounts.fed_raw_name exCfg3 "https://alice.id.example.org/" = "alice" ∧
    FedoraAccounts.fed_raw_name exCfg3 "https://id.example.org/alice" =
      "id.example.org" ∧
    FedoraAccounts.fed_raw_name exCfg3 "https://other.example.com/alice" =
      "other.example.com" := by
  refine ⟨?_, by decide, by decide, by decide⟩
  intro cfg url h
  have h2 : netloc url.data = [] := h
  simp [FedoraAccounts.fed_raw_name, h2]

/-- Witness for C3: a bare username with no netloc passes through. -/
theorem c3_witness : FedoraAccounts.fed_raw_name exCfg3 "alice" = "alice" :=
  c3_fed_raw_name_netloc_based.1 exCfg3 "alice" (by decide)

/-- Claim C1 (code bug evaluation): when an AuthResponse carrying the `lp`
team extension is supplied, `GroupAuth.group_names` returns the dictionary
binding "fas_groups" to the team list — not the team list itself as its own
docstring and the claim state — for any directory server and any username,
the directory never being consulted. -/
theorem c1_group_names_wraps_teams_in_dict
    (srv : LdapServer) (username : Option String) :
    GroupAuth.group_names exCfg3 srv (some exResp1) username =
      .ok (.vDict "fas_groups" (.vList ["copr-team"])) ∧
    GroupAuth.group_names exCfg3 srv (some exResp1) username ≠
      .ok (.vList ["copr-team"]) := by
  refine ⟨rfl, ?_⟩
  intro h
  exact absurd (Except.ok.inj h) (by simp [GroupAuth.group_names, OpenIDGroups.group_names, exResp1])

/-- Claim C9: whenever a response is supplied and carries no `lp` extension,
the result is null — no fall-through to the directory and no error, whatever
the configuration, server or username. -/
theorem c9_resp_without_teams_yields_none
    (cfg : Config) (srv : LdapServer) (r : OidResp) (username : Option String)
    (h : r.extensions_lp = none) :
    GroupAuth.group_names cfg srv (some r) username = .ok .vNone := by
  simp [GroupAuth.group_names, OpenIDGroups.group_names, h]

/-- Witness for C9: a concrete response with no team extension. -/
theorem c9_witness :
    GroupAuth.group_names exCfg3 emptySrv (some respNoLp) (some "u") =
      .ok .vNone :=
  c9_resp_without_teams_yields_none exCfg3 emptySrv respNoLp (some "u") rfl

/-- Claim C2 (code bug evaluation): with a directory that is down on the
first attempt and healthy afterwards, the retry loop surfaces
`CoprHttpException` to the caller immediately, for every amount of fuel —
the `except ldap.SERVER_DOWN` clause of `_send_request_repeatedly` is dead
because `_send_request` already translates `SERVER_DOWN` into
`CoprHttpException` — even though a second attempt would have succeeded. -/
theorem c2_transient_failure_surfaces_immediately :
    (∀ fuel : Nat,
      LDAP._send_request_repeatedly exConn flakySrv "ou=base" ["cn"]
          "(&(objectclass=*))" 1 (fuel + 1) =
        some (.error (.coprHttp "down"))) ∧
    LDAP._send_request exConn flakySrv 2 "ou=base" ["cn"] "(&(objectclass=*))" =
      .ok [⟨"dn", []⟩] := by
  constructor
  · intro fuel
    simp [LDAP._send_request_repeatedly, LDAP._send_request, flakySrv]
  · rfl

/-- Counterexample for C8: with a directory returning no entries,
`query_one` fails with the index exception of the unguarded `[0]` subscript,
not with the typed NotFound failure the claim states, and `get_user_groups`
propagates that exception instead of returning null for the absent user. -/
theorem c8_counterexample_empty_search :
    LDAP.query_one exConn emptySrv ["cn"] [] ≠ .error .notFound ∧
    LDAP.query_one exConn emptySrv ["cn"] [] = .error .indexError ∧
    LDAP.get_user_groups exConn emptySrv "bob" ≠ .ok none ∧
    LDAP.get_user_groups exConn emptySrv "bob" = .error .indexError := by
  refine ⟨by decide, rfl, by decide, rfl⟩

/-- Claim C8 amended: `query_one` returns the first entry of the search
result when at least one entry matches, and fails with the index
out-of-bounds exception of the unguarded `[0]` subscript when no entry
matches; in that case `get_user_groups` propagates the exception for the
absent user instead of returning null. -/
theorem c8_query_one_amended (conn : LDAPConn) (srv : LdapServer)
    (attrs : List String) (filters : List (String × String)) (username : String) :
    (∀ e es,
      srv.respond 1 conn.url conn.search_string attrs
          (LDAP._build_filter filters) = .entries (e :: es) →
      LDAP.query_one conn srv attrs filters = .ok e) ∧
    (srv.respond 1 conn.url conn.search_string attrs
          (LDAP._build_filter filters) = .entries [] →
      LDAP.query_one conn srv attrs filters = .error .indexError) ∧
    (srv.respond 1 conn.url conn.search_string ["cn", "uid", "memberOf", "mail"]
          (LDAP._build_filter [("objectclass", "*"), ("uid", username)]) =
        .entries [] →
      LDAP.get_user_groups conn srv username = .error .indexError) := by
  refine ⟨?_, ?_, ?_⟩
  · intro e es h
    simp [LDAP.query_one, LDAP.send_request, LDAP._send_request, h]
  · intro h
    simp [LDAP.query_one, LDAP.send_request, LDAP._send_request, h]
  · intro h
    simp [LDAP.get_user_groups, LDAP.get_user, LDAP.query_one, LDAP.send_request,
      LDAP._send_request, h]

/-- Witness for C8: the amended behavior at concrete servers. -/
theorem c8_witness :
    LDAP.query_one exConn emptySrv ["cn"] [("uid", "bob")] = .error .indexError ∧
    LDAP.get_user_groups exConn emptySrv "bob" = .error .indexError ∧
    LDAP.query_one exConn oneSrv ["cn"] [("uid", "bob")] =
      .ok ⟨"uid=bob", [("memberOf", ["cn=g,ou=x"])]⟩ :=
  ⟨(c8_query_one_amended exConn emptySrv ["cn"] [("uid", "bob")] "bob").2.1 rfl,
   (c8_query_one_amended exConn emptySrv ["cn"] [("uid", "bob")] "bob").2.2 rfl,
   (c8_query_one_amended exConn oneSrv ["cn"] [("uid", "bob")] "bob").1
     ⟨"uid=bob", [("memberOf", ["cn=g,ou=x"])]⟩ [] rfl⟩

/-- Claim C4: directory provisioning returns an existing Identity unchanged
(claims are not refreshed); with no existing Identity and federated login
enabled it fails with AccessRestricted; with federated login disabled it
creates an Identity whose email is the username, "@" and the configured
email domain. -/
theorem c4_user_from_username_provisioning (cfg : Config) (db : List User)
    (username : String) :
    (∀ u, UsersLogic.get db username = some u →
      Kerberos.user_from_username cfg db username = .ok (u, db)) ∧
    (UsersLogic.get db username = none → cfg.fas_login = true →
      Kerberos.user_from_username cfg db username = .error .accessRestricted) ∧
    (∀ kc, UsersLogic.get db username = none → cfg.fas_login = false →
      cfg.krb5_login = some kc →
      Kerberos.user_from_username cfg db username =
        .ok (⟨username, username ++ "@" ++ kc.email_domain, none⟩,
          db ++ [⟨username, username ++ "@" ++ kc.email_domain, none⟩])) := by
  refine ⟨?_, ?_, ?_⟩
  · intro u h
    simp [Kerberos.user_from_username, h]
  · intro h hfas
    simp [Kerberos.user_from_username, h, hfas]
  · intro kc h hfas hkrb
    simp [Kerberos.user_from_username, UsersLogic.create_user_wrapper, h, hfas, hkrb]

/-- Witness for C4: the creation branch at a concrete Kerberos-only
configuration, and the AccessRestricted branch at a federated one. -/
theorem c4_witness :
    Kerberos.user_from_username cfgK [] "bob" =
      .ok (⟨"bob", "bob" ++ "@" ++ "example.com", none⟩,
        [⟨"bob", "bob" ++ "@" ++ "example.com", none⟩]) ∧
    Kerberos.user_from_username cfgW [] "bob" = .error .accessRestricted :=
  ⟨(c4_user_from_username_provisioning cfgK [] "bob").2.2 ⟨"example.com"⟩ rfl rfl rfl,
   (c4_user_from_username_provisioning cfgW [] "bob").2.1 rfl rfl⟩

/-- A username absent from the store has count zero. -/
theorem count_zero_of_find_none (db : List User) (n : String)
    (h : db.find? (fun u => u.name == n) = none) : countUsers db n = 0 := by
  induction db with
  | nil => rfl
  | cons a l ih =>
    rw [List.find?_cons] at h
    by_cases hpa : a.name = n
    · simp [hpa] at h
    · have hb : (a.name == n) = false := by simp [hpa]
      rw [hb] at h
      simp only [countUsers, List.filter_cons, hb]
      exact ih h

/-- Replacing every record of a given username by one record of that same
username preserves the count for that username. -/
theorem count_map_update (db : List User) (n : String) (u2 : User)
    (h2 : u2.name = n) :
    countUsers (db.map fun v => if v.name == n then u2 else v) n =
      countUsers db n := by
  induction db with
  | nil => rfl
  | cons a l ih =>
    simp only [countUsers] at ih ⊢
    by_cases hpa : a.name = n
    · simp only [List.map_cons, List.filter_cons]
      have hb : (a.name == n) = true := by simp [hpa]
      rw [if_pos hb, if_pos hb]
      have hb2 : (u2.name == n) = true := by simp [h2]
      rw [if_pos hb2]
      simp only [List.length_cons]
      omega
    · simp only [List.map_cons, List.filter_cons]
      have hb : (a.name == n) = false := by simp [hpa]
      have hbn : ¬ (a.name == n) = true := by simp [hb]
      rw [if_neg hbn, if_neg hbn, if_neg hbn]
      exact ih

/-- After the in-place update, the first record found for the username is the
updated record. -/
theorem find_map_update (db : List User) (n : String) (u2 u : User)
    (h2 : u2.name = n)
    (h : db.find? (fun v => v.name == n) = some u) :
    (db.map fun v => if v.name == n then u2 else v).find?
      (fun v => v.name == n) = some u2 := by
  induction db with
  | nil => simp at h
  | cons a l ih =>
    rw [List.find?_cons] at h
    by_cases hpa : a.name = n
    · have hb : (a.name == n) = true := by simp [hpa]
      have hb2 : (u2.name == n) = true := by simp [h2]
      simp only [List.map_cons]
      rw [List.find?_cons, if_pos hb, hb2]
    · have hb : (a.name == n) = false := by simp [hpa]
      have hbn : ¬ (a.name == n) = true := by simp [hb]
      rw [hb] at h
      simp only [List.map_cons]
      rw [List.find?_cons, if_neg hbn, hb]
      exact ih h

/-- Searching an appended store when the first part holds no match. -/
theorem find_append_of_none (db l2 : List User) (p : User → Bool)
    (h : db.find? p = none) : (db ++ l2).find? p = l2.find? p := by
  induction db with
  | nil => rfl
  | cons a l ih =>
    rw [List.find?_cons] at h
    cases hpa : p a with
    | true => rw [hpa] at h; simp at h
    | false =>
      rw [hpa] at h
      rw [List.cons_append, List.find?_cons, hpa]
      exact ih h

/-- A found username contributes at least one record to the count. -/
theorem count_pos_of_find_some (db : List User) (n : String) (u : User)
    (h : db.find? (fun v => v.name == n) = some u) : 1 ≤ countUsers db n := by
  have hm : u ∈ db := List.mem_of_find?_eq_some h
  have hp := List.find?_some h
  have hmem : u ∈ db.filter (fun v => v.name == n) := List.mem_filter.mpr ⟨hm, hp⟩
  exact List.length_pos.mpr (List.ne_nil_of_mem hmem)

/-- One federated provisioning call leaves exactly one record for the
normalized username, carrying the email and timezone claims of that call. -/
theorem user_from_response_single (cfg : Config) (r : OidResp) (db : List User)
    (h : countUsers db (FedoraAccounts.fed_raw_name cfg r.identity_url) ≤ 1) :
    countUsers (FedoraAccounts.user_from_response cfg r db).2
        (FedoraAccounts.fed_raw_name cfg r.identity_url) = 1 ∧
    UsersLogic.get (FedoraAccounts.user_from_response cfg r db).2
        (FedoraAccounts.fed_raw_name cfg r.identity_url) =
      some ⟨FedoraAccounts.fed_raw_name cfg r.identity_url, r.email,
        some r.timezone⟩ := by
  set n := FedoraAccounts.fed_raw_name cfg r.identity_url with hn
  cases hf : db.find? (fun u => u.name == n) with
  | none =>
    have h2 : FedoraAccounts.user_from_response cfg r db =
        (⟨n, r.email, some r.timezone⟩, db ++ [⟨n, r.email, some r.timezone⟩]) := by
      unfold FedoraAccounts.user_from_response
      have hg : UsersLogic.get db n = none := hf
      simp [hg]
    rw [h2]
    constructor
    · show countUsers (db ++ [⟨n, r.email, some r.timezone⟩]) n = 1
      have hz := count_zero_of_find_none db n hf
      simp only [countUsers, List.filter_append] at hz ⊢
      simp [hz, List.length_eq_zero.mp hz]
    · show (db ++ [(⟨n, r.email, some r.timezone⟩ : User)]).find?
          (fun u => u.name == n) = some ⟨n, r.email, some r.timezone⟩
      rw [find_append_of_none db _ _ hf]
      simp [List.find?_cons]
  | some u =>
    have hp := List.find?_some hf
    have hname : u.name = n := by simpa using hp
    have h2 : FedoraAccounts.user_from_response cfg r db =
        (⟨u.name, r.email, some r.timezone⟩,
          db.map fun v =>
            if v.name == n then ⟨u.name, r.email, some r.timezone⟩ else v) := by
      unfold FedoraAccounts.user_from_response
      have hg : UsersLogic.get db n = some u := hf
      simp [hg]
    rw [h2]
    constructor
    · show countUsers (db.map fun v =>
        if v.name == n then ⟨u.name, r.email, some r.timezone⟩ else v) n = 1
      rw [count_map_update db n _ (by simpa using hname)]
      have h1 := count_pos_of_find_some db n u hf
      omega
    · show (db.map fun v =>
          if v.name == n then ⟨u.name, r.email, some r.timezone⟩ else v).find?
            (fun u => u.name == n) = some ⟨n, r.email, some r.timezone⟩
      rw [find_map_update db n _ u (by simpa using hname) hf, hname]

/-- Claim C6: federated provisioning is idempotent on identity — two calls
with the same identity URL leave exactly one stored Identity for the
normalized username, and its email and timezone are the second call's
claims, for existing as well as newly created users (the claims of the two
calls may differ arbitrarily). -/
theorem c6_user_from_response_idempotent (cfg : Config) (r1 r2 : OidResp)
    (db : List User)
    (hurl : r1.identity_url = r2.identity_url)
    (h : countUsers db (FedoraAccounts.fed_raw_name cfg r2.identity_url) ≤ 1) :
    countUsers (FedoraAccounts.user_from_response cfg r2
        (FedoraAccounts.user_from_response cfg r1 db).2).2
      (FedoraAccounts.fed_raw_name cfg r2.identity_url) = 1 ∧
    UsersLogic.get (FedoraAccounts.user_from_response cfg r2
        (FedoraAccounts.user_from_response cfg r1 db).2).2
      (FedoraAccounts.fed_raw_name cfg r2.identity_url) =
      some ⟨FedoraAccounts.fed_raw_name cfg r2.identity_url, r2.email,
        some r2.timezone⟩ := by
  have hn : FedoraAccounts.fed_raw_name cfg r1.identity_url =
      FedoraAccounts.fed_raw_name cfg r2.identity_url := by rw [hurl]
  have h1 := user_from_response_single cfg r1 db (by rw [hn]; exact h)
  rw [hn] at h1
  exact user_from_response_single cfg r2
    (FedoraAccounts.user_from_response cfg r1 db).2 (by omega)

/-- Witness for C6: two concrete calls for one identity URL with different
claims leave one record carrying the second email and timezone. -/
theorem c6_witness :
    countUsers (FedoraAccounts.user_from_response exCfg3 wresp2
        (FedoraAccounts.user_from_response exCfg3 wresp1 []).2).2
      (FedoraAccounts.fed_raw_name exCfg3 wresp2.identity_url) = 1 ∧
    UsersLogic.get (FedoraAccounts.user_from_response exCfg3 wresp2
        (FedoraAccounts.user_from_response exCfg3 wresp1 []).2).2
      (FedoraAccounts.fed_raw_name exCfg3 wresp2.identity_url) =
      some ⟨FedoraAccounts.fed_raw_name exCfg3 wresp2.identity_url,
        "second@example.com", some "CET"⟩ :=
  c6_user_from_response_idempotent exCfg3 wresp1 wresp2 [] rfl (Nat.zero_le 1)

/-- The Python split never returns an empty chunk list. -/
theorem pySplit_ne_nil (sep : Char) (l : List Char) : pySplit sep l ≠ [] := by
  cases l with
  | nil => simp [pySplit]
  | cons c rest =>
    rw [pySplit]
    cases hps : pySplit sep rest with
    | nil => simp
    | cons g gs => by_cases hc : c = sep <;> simp [hc]

/-- Splitting a chunk free of the separator yields that single chunk. -/
theorem pySplit_eq_single (sep : Char) (a : List Char) (h : sep ∉ a) :
    pySplit sep a = [a] := by
  induction a with
  | nil => rfl
  | cons c rest ih =>
    have hc : c ≠ sep := fun hh => h (hh ▸ List.mem_cons_self c rest)
    have hrest : sep ∉ rest := fun hh => h (List.mem_cons_of_mem c hh)
    rw [pySplit, ih hrest]
    simp [hc]

/-- Splitting peels off a separator-free head chunk. -/
theorem pySplit_cons_sep (sep : Char) (a b : List Char) (h : sep ∉ a) :
    pySplit sep (a ++ sep :: b) = a :: pySplit sep b := by
  induction a with
  | nil =>
    simp only [List.nil_append]
    rw [pySplit]
    cases hps : pySplit sep b with
    | nil => exact absurd hps (pySplit_ne_nil sep b)
    | cons g gs => simp [hps]
  | cons c rest ih =>
    have hc : c ≠ sep := fun hh => h (hh ▸ List.mem_cons_self c rest)
    have hrest : sep ∉ rest := fun hh => h (List.mem_cons_of_mem c hh)
    rw [List.cons_append, pySplit, ih hrest]
    simp [hc]

/-- Splitting a head chunk followed by flattened ",key=value" segments
recovers the head and one chunk per segment. -/
theorem pySplit_chunks (segs : List (List Char × List Char)) :
    ∀ head : List Char, ',' ∉ head →
    (∀ p ∈ segs, ',' ∉ p.1 ∧ ',' ∉ p.2) →
    pySplit ',' (head ++ segsFlat segs) =
      head :: segs.map fun p => p.1 ++ ('=' :: p.2) := by
  induction segs with
  | nil =>
    intro head hh _
    simp only [segsFlat, List.append_nil, List.map_nil]
    exact pySplit_eq_single ',' head hh
  | cons p rest ih =>
    intro head hh hsegs
    have hp := hsegs p (List.mem_cons_self p rest)
    have hmem : ',' ∉ p.1 ++ ('=' :: p.2) := by
      intro hm
      rcases List.mem_append.mp hm with h1 | h2
      · exact hp.1 h1
      · rcases List.mem_cons.mp h2 with he | h3
        · exact absurd he (by decide)
        · exact hp.2 h3
    show pySplit ','
        (head ++ (',' :: (p.1 ++ ('=' :: (p.2 ++ segsFlat rest))))) = _
    rw [pySplit_cons_sep ',' head _ hh]
    have hassoc : p.1 ++ ('=' :: (p.2 ++ segsFlat rest)) =
        (p.1 ++ ('=' :: p.2)) ++ segsFlat rest := by
      simp [List.append_assoc]
    rw [hassoc, ih (p.1 ++ ('=' :: p.2)) hmem
      (fun q hq => hsegs q (List.mem_cons_of_mem p hq))]
    simp

/-- Converting equality-free key/value chunks into attribute pairs. -/
theorem toPairs_map (ps : List (List Char × List Char))
    (h : ∀ p ∈ ps, '=' ∉ p.1 ∧ '=' ∉ p.2) :
    toPairs (ps.map fun p => p.1 ++ ('=' :: p.2)) = some ps := by
  induction ps with
  | nil => rfl
  | cons p rest ih =>
    have hp := h p (List.mem_cons_self p rest)
    simp only [List.map_cons, toPairs]
    rw [pySplit_cons_sep '=' p.1 p.2 hp.1, pySplit_eq_single '=' p.2 hp.2]
    rw [ih (fun q hq => h q (List.mem_cons_of_mem p hq))]
    rfl

/-- Folding the dictionary-update step over pairs whose keys differ from the
looked-up key leaves the accumulator unchanged. -/
theorem foldl_lookup_skip {β : Type} (k0 : List Char)
    (ps : List (List Char × β)) (h : ∀ p ∈ ps, p.1 ≠ k0) (acc : Option β) :
    ps.foldl (fun acc p => if p.1 = k0 then some p.2 else acc) acc = acc := by
  induction ps generalizing acc with
  | nil => rfl
  | cons p rest ih =>
    rw [List.foldl_cons, if_neg (h p (List.mem_cons_self p rest))]
    exact ih (fun q hq => h q (List.mem_cons_of_mem p hq)) acc

/-- Claim C7: for every directory-group string of the shape
`cn=X,key1=value1,...` — a `cn` chunk followed by any number of comma
separated key=value attribute segments whose keys are not `cn` and whose
keys, values and `X` hold no `,` or `=` — the parser inside
`LDAPGroups.group_names` extracts exactly `X`. -/
theorem c7_parse_group_extracts_cn (X : List Char)
    (segs : List (List Char × List Char))
    (hX1 : ',' ∉ X) (hX2 : '=' ∉ X)
    (hsegs : ∀ p ∈ segs, p.1 ≠ ['c', 'n'] ∧ ',' ∉ p.1 ∧ '=' ∉ p.1 ∧
      ',' ∉ p.2 ∧ '=' ∉ p.2) :
    parse_group ((['c', 'n'] ++ ('=' :: X)) ++ segsFlat segs) = .ok X := by
  have hhead : ',' ∉ ['c', 'n'] ++ ('=' :: X) := by
    intro hm
    rcases List.mem_append.mp hm with h1 | h2
    · exact absurd h1 (by decide)
    · rcases List.mem_cons.mp h2 with he | h3
      · exact absurd he (by decide)
      · exact hX1 h3
  have hsplit := pySplit_chunks segs (['c', 'n'] ++ ('=' :: X)) hhead
    (fun p hp => ⟨(hsegs p hp).2.1, (hsegs p hp).2.2.2.1⟩)
  have hd : dictLookup ((⟨['c', 'n'], X⟩ : List Char × List Char) :: segs)
      ['c', 'n'] = some X := by
    unfold dictLookup
    rw [List.foldl_cons, if_pos rfl]
    exact foldl_lookup_skip ['c', 'n'] segs (fun p hp => (hsegs p hp).1) (some X)
  have hmap : (['c', 'n'] ++ ('=' :: X)) ::
      (segs.map fun p => p.1 ++ ('=' :: p.2)) =
      ((⟨['c', 'n'], X⟩ : List Char × List Char) :: segs).map
        (fun p => p.1 ++ ('=' :: p.2)) := rfl
  unfold parse_group
  rw [hsplit, hmap, toPairs_map ((⟨['c', 'n'], X⟩ : List Char × List Char) :: segs)
    ?hpairs]
  case hpairs =>
    intro p hp
    rcases List.mem_cons.mp hp with he | hm
    · rw [he]
      exact ⟨(by decide : '=' ∉ ['c', 'n']), hX2⟩
    · exact ⟨(hsegs p hm).2.2.1, (hsegs p hm).2.2.2.2⟩
  simp only [hd]

/-- Witness for C7: a concrete DN-shaped string with two extra segments. -/
theorem c7_witness :
    parse_group ((['c', 'n'] ++ ('=' :: String.toList "mygroup")) ++
      segsFlat [(String.toList "ou", String.toList "Groups"),
        (String.toList "dc", String.toList "example")]) =
      .ok (String.toList "mygroup") :=
  c7_parse_group_extracts_cn (String.toList "mygroup")
    [(String.toList "ou", String.toList "Groups"),
      (String.toList "dc", String.toList "example")]
    (by decide) (by decide) (by decide)

/-- Witness for C1: the evaluation at a concrete server and username. -/
theorem c1_witness :
    GroupAuth.group_names exCfg3 emptySrv (some exResp1) (some "u") =
      .ok (.vDict "fas_groups" (.vList ["copr-team"])) ∧
    GroupAuth.group_names exCfg3 emptySrv (some exResp1) (some "u") ≠
      .ok (.vList ["copr-team"]) :=
  c1_group_names_wraps_teams_in_dict emptySrv (some "u")

/-- Witness for C2: the loop evaluated with one unit of fuel. -/
theorem c2_witness :
    LDAP._send_request_repeatedly exConn flakySrv "ou=base" ["cn"]
        "(&(objectclass=*))" 1 1 = some (.error (.coprHttp "down")) ∧
    LDAP._send_request exConn flakySrv 2 "ou=base" ["cn"] "(&(objectclass=*))" =
      .ok [⟨"dn", []⟩] :=
  ⟨c2_transient_failure_surfaces_immediately.1 0,
   c2_transient_failure_surfaces_immediately.2⟩
